import Mathlib

/-!
Verification of the gotoken JWT library: a shallow embedding of the token
codec and verification pipeline (compact serialization, base64url codec,
header algorithm selection, token engine, claims time validation), together
with theorems settling the specified properties.

Bytes are modelled as natural numbers below 256, token text as `List Char`.
The structured-data (JSON) codec and the keyed-hash (HMAC) primitives are
external collaborators of the library; they are modelled as parameters
(`Codec`, `HMACPrimitives`) exactly as the spec treats them.
-/

namespace Gotoken

/-- The error taxonomy of the library (`errors.go` plus the time-claim
errors of the claims validator). `base64Error` stands for the decode-layer
error of the base64url codec, `codecError` for errors of the external
structured-data codec. -/
inductive Err where
  | invalidToken : Err
  | signatureMismatch : Err
  | unsupportedAlgorithm : String → Err
  | unsupportedType : String → Err
  | tokenExpired : Err
  | tokenNotYetValid : Err
  | tokenUsedBeforeIssued : Err
  | base64Error : Err
  | codecError : String → Err
deriving DecidableEq, Repr

/-- Modelled from the spec: the base64url alphabet (standard base64 with
`-` and `_` substituted for `+` and `/`). The encoding functions of
`pkg/encoding` are absent from the sources (only their tests remain), so
the codec is modelled from spec section 4.1. -/
def b64Alphabet : List Char :=
  [ 'A', 'B', 'C', 'D', 'E', 'F', 'G', 'H', 'I', 'J', 'K', 'L', 'M',
    'N', 'O', 'P', 'Q', 'R', 'S', 'T', 'U', 'V', 'W', 'X', 'Y', 'Z',
    'a', 'b', 'c', 'd', 'e', 'f', 'g', 'h', 'i', 'j', 'k', 'l', 'm',
    'n', 'o', 'p', 'q', 'r', 's', 't', 'u', 'v', 'w', 'x', 'y', 'z',
    '0', '1', '2', '3', '4', '5', '6', '7', '8', '9', '-', '_' ]

/-- The character for a 6-bit group. -/
def b64c (n : Nat) : Char := b64Alphabet.getD n 'A'

def b64vAux : List Char → Nat → Char → Option Nat
  | [], _, _ => none
  | a :: rest, i, c => if c = a then some i else b64vAux rest (i + 1) c

/-- The 6-bit value of an alphabet character; `none` outside the URL-safe
alphabet (in particular for the padding character). -/
def b64v (c : Char) : Option Nat := b64vAux b64Alphabet 0 c

/-- Whether a character belongs to the URL-safe base64 alphabet. -/
def isB64UrlChar (c : Char) : Bool := (b64v c).isSome

/-- Modelled from the spec: unpadded base64url encoding of a byte
sequence (spec 4.1 `encode`); `pkg/encoding.EncodeJWTBase64` is absent
from the sources. -/
def encodeJWTBase64 : List Nat → List Char
  | [] => []
  | [b1] => [b64c (b1 / 4), b64c (b1 % 4 * 16)]
  | [b1, b2] => [b64c (b1 / 4), b64c (b1 % 4 * 16 + b2 / 16), b64c (b2 % 16 * 4)]
  | b1 :: b2 :: b3 :: rest =>
      b64c (b1 / 4) :: b64c (b1 % 4 * 16 + b2 / 16) ::
      b64c (b2 % 16 * 4 + b3 / 64) :: b64c (b3 % 64) :: encodeJWTBase64 rest
  termination_by structural l => l

/-- Modelled from the spec: unpadded base64url decoding (spec 4.1
`decode`); `pkg/encoding.DecodeJWTBase64` is absent from the sources.
Any character outside the URL-safe alphabet (padding included) is
rejected, as is a dangling final group of one character. -/
def decodeJWTBase64 : List Char → Except Err (List Nat)
  | [] => .ok []
  | [_] => .error .base64Error
  | [c1, c2] =>
      match b64v c1, b64v c2 with
      | some s1, some s2 => .ok [s1 * 4 + s2 / 16]
      | _, _ => .error .base64Error
  | [c1, c2, c3] =>
      match b64v c1, b64v c2, b64v c3 with
      | some s1, some s2, some s3 => .ok [s1 * 4 + s2 / 16, s2 % 16 * 16 + s3 / 4]
      | _, _, _ => .error .base64Error
  | c1 :: c2 :: c3 :: c4 :: rest =>
      match b64v c1, b64v c2, b64v c3, b64v c4 with
      | some s1, some s2, some s3, some s4 =>
          match decodeJWTBase64 rest with
          | .ok tl => .ok ((s1 * 4 + s2 / 16) :: (s2 % 16 * 16 + s3 / 4) :: (s3 % 4 * 64 + s4) :: tl)
          | .error e => .error e
      | _, _, _, _ => .error .base64Error
  termination_by structural l => l

theorem b64v_b64c : ∀ n, n < 64 → b64v (b64c n) = some n := by decide

theorem isB64UrlChar_b64c : ∀ n, n < 64 → isB64UrlChar (b64c n) = true := by decide

/-- Round-trip of the base64url codec on byte sequences. -/
theorem decodeJWTBase64_encodeJWTBase64 :
    ∀ B : List Nat, (∀ b ∈ B, b < 256) →
      decodeJWTBase64 (encodeJWTBase64 B) = .ok B
  | [], _ => rfl
  | [b1], h => by
      have h1 : b1 < 256 := h b1 (by simp)
      have e1 := b64v_b64c (b1 / 4) (by omega)
      have e2 := b64v_b64c (b1 % 4 * 16) (by omega)
      simp only [encodeJWTBase64, decodeJWTBase64, e1, e2]
      congr 1
      simp only [List.cons.injEq, and_true]
      omega
  | [b1, b2], h => by
      have h1 : b1 < 256 := h b1 (by simp)
      have h2 : b2 < 256 := h b2 (by simp)
      have e1 := b64v_b64c (b1 / 4) (by omega)
      have e2 := b64v_b64c (b1 % 4 * 16 + b2 / 16) (by omega)
      have e3 := b64v_b64c (b2 % 16 * 4) (by omega)
      simp only [encodeJWTBase64, decodeJWTBase64, e1, e2, e3]
      congr 1
      simp only [List.cons.injEq, and_true]
      omega
  | b1 :: b2 :: b3 :: rest, h => by
      have h1 : b1 < 256 := h b1 (by simp)
      have h2 : b2 < 256 := h b2 (by simp)
      have h3 : b3 < 256 := h b3 (by simp)
      have ih := decodeJWTBase64_encodeJWTBase64 rest
        (fun b hb => h b (by simp [hb]))
      have e1 := b64v_b64c (b1 / 4) (by omega)
      have e2 := b64v_b64c (b1 % 4 * 16 + b2 / 16) (by omega)
      have e3 := b64v_b64c (b2 % 16 * 4 + b3 / 64) (by omega)
      have e4 := b64v_b64c (b3 % 64) (by omega)
      simp only [encodeJWTBase64, decodeJWTBase64, e1, e2, e3, e4, ih]
      congr 1
      simp only [List.cons.injEq, and_true]
      omega

/-- Every character emitted by the encoder belongs to the URL-safe
alphabet. -/
theorem mem_encodeJWTBase64_isB64 :
    ∀ B : List Nat, (∀ b ∈ B, b < 256) →
      ∀ c ∈ encodeJWTBase64 B, isB64UrlChar c = true
  | [], _, c, hc => by simp [encodeJWTBase64] at hc
  | [b1], h, c, hc => by
      have h1 : b1 < 256 := h b1 (by simp)
      simp only [encodeJWTBase64, List.mem_cons, List.not_mem_nil, or_false] at hc
      rcases hc with rfl | rfl
      · exact isB64UrlChar_b64c _ (by omega)
      · exact isB64UrlChar_b64c _ (by omega)
  | [b1, b2], h, c, hc => by
      have h1 : b1 < 256 := h b1 (by simp)
      have h2 : b2 < 256 := h b2 (by simp)
      simp only [encodeJWTBase64, List.mem_cons, List.not_mem_nil, or_false] at hc
      rcases hc with rfl | rfl | rfl
      · exact isB64UrlChar_b64c _ (by omega)
      · exact isB64UrlChar_b64c _ (by omega)
      · exact isB64UrlChar_b64c _ (by omega)
  | b1 :: b2 :: b3 :: rest, h, c, hc => by
      have h1 : b1 < 256 := h b1 (by simp)
      have h2 : b2 < 256 := h b2 (by simp)
      have h3 : b3 < 256 := h b3 (by simp)
      simp only [encodeJWTBase64, List.mem_cons] at hc
      rcases hc with rfl | rfl | rfl | rfl | hc
      · exact isB64UrlChar_b64c _ (by omega)
      · exact isB64UrlChar_b64c _ (by omega)
      · exact isB64UrlChar_b64c _ (by omega)
      · exact isB64UrlChar_b64c _ (by omega)
      · exact mem_encodeJWTBase64_isB64 rest (fun b hb => h b (by simp [hb])) c hc

theorem b64v_eq_none_of_invalid {c : Char} (h : isB64UrlChar c = false) :
    b64v c = none := by
  unfold isB64UrlChar at h
  rcases e : b64v c with _ | v
  · rfl
  · rw [e] at h
    simp at h

/-- The decoder fails on any text containing a character outside the
URL-safe alphabet. -/
theorem decodeJWTBase64_err_of_invalid :
    ∀ s : List Char, (∃ c ∈ s, isB64UrlChar c = false) →
      decodeJWTBase64 s = .error .base64Error
  | [], h => by simp at h
  | [c1], _ => rfl
  | [c1, c2], h => by
      rcases h with ⟨c, hc, hv⟩
      have hv' := b64v_eq_none_of_invalid hv
      simp only [List.mem_cons, List.not_mem_nil, or_false] at hc
      rcases hc with rfl | rfl
      · simp [decodeJWTBase64, hv']
      · rcases e1 : b64v c1 with _ | s1 <;> simp [decodeJWTBase64, e1, hv']
  | [c1, c2, c3], h => by
      rcases h with ⟨c, hc, hv⟩
      have hv' := b64v_eq_none_of_invalid hv
      simp only [List.mem_cons, List.not_mem_nil, or_false] at hc
      rcases hc with rfl | rfl | rfl
      · simp [decodeJWTBase64, hv']
      · rcases e1 : b64v c1 with _ | s1 <;> simp [decodeJWTBase64, e1, hv']
      · rcases e1 : b64v c1 with _ | s1 <;> rcases e2 : b64v c2 with _ | s2 <;>
          simp [decodeJWTBase64, e1, e2, hv']
  | c1 :: c2 :: c3 :: c4 :: rest, h => by
      rcases h with ⟨c, hc, hv⟩
      have hv' := b64v_eq_none_of_invalid hv
      simp only [List.mem_cons] at hc
      rcases hc with rfl | rfl | rfl | rfl | hmem
      · simp [decodeJWTBase64, hv']
      · rcases e1 : b64v c1 with _ | s1 <;> simp [decodeJWTBase64, e1, hv']
      · rcases e1 : b64v c1 with _ | s1 <;> rcases e2 : b64v c2 with _ | s2 <;>
          simp [decodeJWTBase64, e1, e2, hv']
      · rcases e1 : b64v c1 with _ | s1 <;> rcases e2 : b64v c2 with _ | s2 <;>
          rcases e3 : b64v c3 with _ | s3 <;> simp [decodeJWTBase64, e1, e2, e3, hv']
      · have ih := decodeJWTBase64_err_of_invalid rest ⟨c, hmem, hv⟩
        rcases e1 : b64v c1 with _ | s1 <;> rcases e2 : b64v c2 with _ | s2 <;>
          rcases e3 : b64v c3 with _ | s3 <;> rcases e4 : b64v c4 with _ | s4 <;>
          simp [decodeJWTBase64, e1, e2, e3, e4, ih]

/-- Split a text at the first separator, as the first step of Go's
`strings.SplitN(s, ".", 3)`. -/
def splitDot : List Char → Option (List Char × List Char)
  | [] => none
  | c :: rest =>
      if c = '.' then some ([], rest)
      else
        match splitDot rest with
        | none => none
        | some p => some (c :: p.1, p.2)

/-- Go's `strings.SplitN(s, ".", 3)`: at most three fields, the third
absorbing every remaining character. -/
def splitN3Dot (s : List Char) : List (List Char) :=
  match splitDot s with
  | none => [s]
  | some p =>
      match splitDot p.2 with
      | none => [p.1, p.2]
      | some q => [p.1, q.1, q.2]

/-- `b64values.marshal` of `b64values.go`: join the three segments with
the separator. -/
def b64valuesMarshal (h p sg : List Char) : List Char :=
  h ++ '.' :: (p ++ '.' :: sg)

/-- `b64values.unmarshal` of `b64values.go`: split on the first two
separators and require exactly three fields. -/
def b64valuesUnmarshal (s : List Char) : Except Err (List Char × List Char × List Char) :=
  match splitN3Dot s with
  | [h, p, sg] => .ok (h, p, sg)
  | _ => .error .invalidToken

theorem splitDot_eq_none {s : List Char} : splitDot s = none ↔ '.' ∉ s := by
  induction s with
  | nil => simp [splitDot]
  | cons c rest ih =>
      by_cases hc : c = '.'
      · subst hc
        simp [splitDot]
      · rcases e : splitDot rest with _ | p <;>
          simp_all [splitDot, hc, eq_comm (a := c)]

theorem splitDot_eq_some {s a b : List Char} (h : splitDot s = some (a, b)) :
    s = a ++ '.' :: b ∧ '.' ∉ a := by
  induction s generalizing a b with
  | nil => simp [splitDot] at h
  | cons c rest ih =>
      by_cases hc : c = '.'
      · subst hc
        simp only [splitDot, if_pos rfl, Option.some.injEq, Prod.mk.injEq] at h
        rcases h with ⟨rfl, rfl⟩
        simp
      · simp only [splitDot, if_neg hc] at h
        rcases e : splitDot rest with _ | p
        · rw [e] at h
          simp at h
        · rw [e] at h
          simp only [Option.some.injEq, Prod.mk.injEq] at h
          rcases h with ⟨h1, h2⟩
          rcases p with ⟨p1, p2⟩
          have := ih (a := p1) (b := p2) e
          subst h2
          rcases this with ⟨rfl, hp1⟩
          rcases h1.symm with rfl
          refine ⟨rfl, ?_⟩
          simp only [List.mem_cons]
          rintro (rfl | hmem)
          · exact hc rfl
          · exact hp1 hmem

theorem splitDot_append {H : List Char} (rest : List Char) (hH : '.' ∉ H) :
    splitDot (H ++ '.' :: rest) = some (H, rest) := by
  induction H with
  | nil => simp [splitDot]
  | cons c t ih =>
      have hc : c ≠ '.' := by
        intro e
        exact hH (by simp [e])
      have ht : '.' ∉ t := fun m => hH (by simp [m])
      simp [splitDot, hc, ih ht]

theorem b64valuesUnmarshal_marshal {h p : List Char} (sg : List Char)
    (hh : '.' ∉ h) (hp : '.' ∉ p) :
    b64valuesUnmarshal (b64valuesMarshal h p sg) = .ok (h, p, sg) := by
  unfold b64valuesMarshal b64valuesUnmarshal splitN3Dot
  rw [splitDot_append (p ++ '.' :: sg) hh]
  simp only
  rw [splitDot_append sg hp]

theorem count_of_splitDot_some {s a b : List Char} (h : splitDot s = some (a, b)) :
    s.count '.' = b.count '.' + 1 := by
  rcases splitDot_eq_some h with ⟨rfl, ha⟩
  rw [List.count_append, List.count_cons]
  rw [List.count_eq_zero_of_not_mem ha]
  simp [Nat.add_comm]

theorem splitN3Dot_of_none {s : List Char} (h : splitDot s = none) :
    splitN3Dot s = [s] := by
  unfold splitN3Dot
  rw [h]

theorem splitN3Dot_of_some_none {s a b : List Char}
    (h1 : splitDot s = some (a, b)) (h2 : splitDot b = none) :
    splitN3Dot s = [a, b] := by
  unfold splitN3Dot
  rw [h1]
  simp only
  rw [h2]

theorem splitN3Dot_of_some_some {s a b c d : List Char}
    (h1 : splitDot s = some (a, b)) (h2 : splitDot b = some (c, d)) :
    splitN3Dot s = [a, c, d] := by
  unfold splitN3Dot
  rw [h1]
  simp only
  rw [h2]

theorem b64valuesUnmarshal_err_iff (s : List Char) :
    b64valuesUnmarshal s = .error .invalidToken ↔ s.count '.' < 2 := by
  rcases e1 : splitDot s with _ | ⟨a, b⟩
  · have h0 : s.count '.' = 0 :=
      List.count_eq_zero_of_not_mem (splitDot_eq_none.mp e1)
    unfold b64valuesUnmarshal
    rw [splitN3Dot_of_none e1]
    exact iff_of_true rfl (by omega)
  · have hc1 := count_of_splitDot_some e1
    rcases e2 : splitDot b with _ | ⟨c, d⟩
    · have h0 : b.count '.' = 0 :=
        List.count_eq_zero_of_not_mem (splitDot_eq_none.mp e2)
      unfold b64valuesUnmarshal
      rw [splitN3Dot_of_some_none e1 e2]
      exact iff_of_true rfl (by omega)
    · have hc2 := count_of_splitDot_some e2
      unfold b64valuesUnmarshal
      rw [splitN3Dot_of_some_some e1 e2]
      exact iff_of_false (by simp) (by omega)

/-- The JWT header of `header.go`: algorithm and token-type metadata. -/
structure Header where
  alg : String
  typ : String
deriving DecidableEq, Repr

/-- ASCII uppercasing of a string, `strings.ToUpper` as used by
`Header.signer`. -/
def toUpperString (s : String) : String := ⟨s.data.map Char.toUpper⟩

/-- The externally supplied keyed-hash primitives (`pkg/crypto`): an HMAC
construction over SHA-256/384/512, taking the secret and the message. The
spec treats the hash implementations as external collaborators. -/
structure HMACPrimitives where
  hmacSHA256 : List Nat → List Nat → List Nat
  hmacSHA384 : List Nat → List Nat → List Nat
  hmacSHA512 : List Nat → List Nat → List Nat

/-- `Header.signer` of `header.go`: case-insensitive algorithm dispatch,
returning the keyed hash seeded with the secret, or
`UnsupportedAlgorithmError` carrying the original algorithm string. -/
def Header.signer (P : HMACPrimitives) (h : Header) (secret : List Nat) :
    Except Err (List Nat → List Nat) :=
  let alg := toUpperString h.alg
  if alg = "HS256" then .ok (P.hmacSHA256 secret)
  else if alg = "HS384" then .ok (P.hmacSHA384 secret)
  else if alg = "HS512" then .ok (P.hmacSHA512 secret)
  else .error (.unsupportedAlgorithm h.alg)

/-- The external structured-data codec (spec section 6): serialization to
bytes, and deserialization into a target value passed by reference. -/
structure Codec (α : Type) where
  encodeJSON : α → Except Err (List Nat)
  decodeJSON : List Nat → α → Except Err α

/-- `Header.marshal` of `header.go`: structured-data encoding followed by
base64url encoding. -/
def headerMarshal (cH : Codec Header) (h : Header) : Except Err (List Char) :=
  match cH.encodeJSON h with
  | .error e => .error e
  | .ok bs => .ok (encodeJWTBase64 bs)

/-- `Header.unmarshal` of `header.go`: base64url decoding followed by
structured-data decoding into the header; either failure propagates
verbatim. -/
def headerUnmarshal (cH : Codec Header) (seg : List Char) (h : Header) :
    Except Err Header :=
  match decodeJWTBase64 seg with
  | .error e => .error e
  | .ok bs => cH.decodeJSON bs h

/-- `payload.marshal` of `payload.go`. -/
def payloadMarshal {α : Type} (cA : Codec α) (c : α) : Except Err (List Char) :=
  match cA.encodeJSON c with
  | .error e => .error e
  | .ok bs => .ok (encodeJWTBase64 bs)

/-- `payload.unmarshal` of `payload.go`: base64url decoding followed by
structured-data decoding into the claims target. -/
def payloadUnmarshal {α : Type} (cA : Codec α) (seg : List Char) (c : α) :
    Except Err α :=
  match decodeJWTBase64 seg with
  | .error e => .error e
  | .ok bs => cA.decodeJSON bs c

/-- `[]byte(s)` on token text (all token text is ASCII). -/
def charsToBytes (s : List Char) : List Nat := s.map Char.toNat

/-- `token.marshal` of `token.go`: resolve the signer, encode header and
payload, sign `header + "." + payload`, join the three segments. -/
def tokenMarshal {α : Type} (P : HMACPrimitives) (cH : Codec Header)
    (cA : Codec α) (h : Header) (claims : α) (secret : List Nat) :
    Except Err (List Char) :=
  match Header.signer P h secret with
  | .error e => .error e
  | .ok signFn =>
      match headerMarshal cH h with
      | .error e => .error e
      | .ok tokenHeader =>
          match payloadMarshal cA claims with
          | .error e => .error e
          | .ok tokenPayload =>
              let signingMessage := tokenHeader ++ '.' :: tokenPayload
              let tokenSignature := encodeJWTBase64 (signFn (charsToBytes signingMessage))
              .ok (b64valuesMarshal tokenHeader tokenPayload tokenSignature)

/-- `token.unmarshal` of `token.go`, with the header and claims states
threaded explicitly: split, decode the signature segment (failure narrowed
to `InvalidTokenError`), decode the header, resolve the signer, recompute
the signature over the received segments, compare (the constant-time
`crypto.Equal` is semantically list equality), and only on a match decode
the payload into the claims target. -/
def tokenUnmarshal {α : Type} (P : HMACPrimitives) (cH : Codec Header)
    (cA : Codec α) (jws : List Char) (secret : List Nat) (h0 : Header) (c0 : α) :
    Option Err × Header × α :=
  match b64valuesUnmarshal jws with
  | .error e => (some e, h0, c0)
  | .ok segs =>
      match decodeJWTBase64 segs.2.2 with
      | .error _ => (some .invalidToken, h0, c0)
      | .ok expectedSignature =>
          match headerUnmarshal cH segs.1 h0 with
          | .error e => (some e, h0, c0)
          | .ok h1 =>
              match Header.signer P h1 secret with
              | .error e => (some e, h1, c0)
              | .ok signFn =>
                  let signingMessage := segs.1 ++ '.' :: segs.2.1
                  let computedSignature := signFn (charsToBytes signingMessage)
                  if computedSignature = expectedSignature then
                    match payloadUnmarshal cA segs.2.1 c0 with
                    | .error e => (some e, h1, c0)
                    | .ok c1 => (none, h1, c1)
                  else (some .signatureMismatch, h1, c0)

/-- The zero `Header` value a fresh `token` starts from. -/
def zeroHeader : Header := ⟨"", ""⟩

/-- `Marshal` of `jwt/marshal.go`. -/
def MarshalJWT {α : Type} (P : HMACPrimitives) (cH : Codec Header)
    (cA : Codec α) (h : Header) (claims : α) (secret : List Nat) :
    Except Err (List Char) :=
  tokenMarshal P cH cA h claims secret

/-- `Unmarshal` of `jwt/unmarshal.go`: token verification followed by the
type-field check `t.header.Typ != JWT`. Returns the error (if any) and
the final state of the caller claims target. -/
def UnmarshalJWT {α : Type} (P : HMACPrimitives) (cH : Codec Header)
    (cA : Codec α) (jws : List Char) (c0 : α) (secret : List Nat) :
    Option Err × α :=
  match tokenUnmarshal P cH cA jws secret zeroHeader c0 with
  | (some e, _, c1) => (some e, c1)
  | (none, h1, c1) =>
      if h1.typ = "JWT" then (none, c1)
      else (some (.unsupportedType h1.typ), c1)

/-- Modelled from the spec: the standard claims shape (spec section 3);
the `Claims` struct is absent from the sources (only its tests remain). -/
structure Claims where
  issuer : String
  subject : String
  audience : String
  expiresAt : Int
  notBefore : Int
  issuedAt : Int
  id : String
deriving DecidableEq, Repr

/-- Modelled from the spec: the time validation of the standard claims
(`Claims.Valid`, absent from the sources): `expiresAt` (if set) must be
strictly greater than now, `notBefore` and `issuedAt` (if set) must be at
most now; zero fields are skipped. -/
def Claims.valid (now : Int) (c : Claims) : Option Err :=
  if c.expiresAt ≠ 0 ∧ c.expiresAt ≤ now then some .tokenExpired
  else if c.notBefore ≠ 0 ∧ now < c.notBefore then some .tokenNotYetValid
  else if c.issuedAt ≠ 0 ∧ now < c.issuedAt then some .tokenUsedBeforeIssued
  else none

/-- Modelled from the spec: the verifying `Unmarshal` that invokes the
standard time-validation capability (spec 4.5 steps 8 and 9, absent from
the sources, exercised only by the tests): after signature verification
and payload decoding, validate the time claims, then check the header
type, an empty type being treated as the default matching "JWT". -/
def UnmarshalValidate (P : HMACPrimitives) (cH : Codec Header)
    (cC : Codec Claims) (now : Int) (jws : List Char) (c0 : Claims)
    (secret : List Nat) : Option Err × Claims :=
  match tokenUnmarshal P cH cC jws secret zeroHeader c0 with
  | (some e, _, c1) => (some e, c1)
  | (none, h1, c1) =>
      match Claims.valid now c1 with
      | some e => (some e, c1)
      | none =>
          if h1.typ = "" ∨ h1.typ = "JWT" then (none, c1)
          else (some (.unsupportedType h1.typ), c1)

instance {e a : Type} [DecidableEq e] [DecidableEq a] : DecidableEq (Except e a) := fun x y =>
  match x, y with
  | .ok v, .ok w =>
      decidable_of_iff (v = w) (by constructor
                                   · intro h
                                     rw [h]
                                   · intro h
                                     cases h
                                     rfl)
  | .error v, .error w =>
      decidable_of_iff (v = w) (by constructor
                                   · intro h
                                     rw [h]
                                   · intro h
                                     cases h
                                     rfl)
  | .ok _, .error _ => .isFalse (by intro h; cases h)
  | .error _, .ok _ => .isFalse (by intro h; cases h)

/-- A toy keyed hash used to instantiate the external keyed-hash
collaborator in witnesses: a tag byte distinguishing the algorithm,
followed by a checksum of key and message. -/
def toyHMAC (tag : Nat) (key msg : List Nat) : List Nat :=
  [tag, (key.sum + msg.sum) % 256]

/-- Witness instantiation of the keyed-hash primitives. -/
def toyPrimitives : HMACPrimitives := ⟨toyHMAC 1, toyHMAC 2, toyHMAC 3⟩

def bytesToChars (bs : List Nat) : List Char := bs.map Char.ofNat

/-- Decoding half of the witness header codec: the bytes before the 255
marker are the algorithm, the bytes after it the type. -/
def headerCodecDec (bs : List Nat) : Header :=
  ⟨⟨bytesToChars (bs.takeWhile (fun b => b != 255))⟩,
   ⟨bytesToChars ((bs.dropWhile (fun b => b != 255)).drop 1)⟩⟩

/-- Witness instantiation of the structured-data codec at `Header`. -/
def headerCodec : Codec Header :=
  ⟨fun h => .ok (charsToBytes h.alg.data ++ 255 :: charsToBytes h.typ.data),
   fun bs _ => .ok (headerCodecDec bs)⟩

/-- Witness instantiation of the structured-data codec at `Nat` claims. -/
def natCodec : Codec Nat :=
  ⟨fun n => .ok [n % 256], fun bs _ => .ok (bs.headD 0)⟩

/-- Witness instantiation of the structured-data codec at `Claims`
(covering the three time fields). -/
def claimsCodec : Codec Claims :=
  ⟨fun c => .ok [c.expiresAt.toNat, c.notBefore.toNat, c.issuedAt.toNat],
   fun bs _ => .ok ⟨"", "", "", Int.ofNat (bs.getD 0 0), Int.ofNat (bs.getD 1 0),
     Int.ofNat (bs.getD 2 0), ""⟩⟩


theorem dot_not_mem_encodeJWTBase64 {bs : List Nat} (hbs : ∀ b ∈ bs, b < 256) :
    '.' ∉ encodeJWTBase64 bs := fun hmem =>
  absurd (mem_encodeJWTBase64_isB64 bs hbs '.' hmem) (by decide)

/-- Composition of `token.marshal` and `token.unmarshal`: a token built
from a header and claims whose codec encodings round-trip verifies
successfully and populates the claims target with the decoded claims. -/
theorem tokenUnmarshal_of_marshal {α : Type} (P : HMACPrimitives) (cH : Codec Header)
    (cA : Codec α) (h h1 : Header) (c c0 c1 : α) (secret : List Nat)
    (f : List Nat → List Nat) (bsH bsC : List Nat)
    (hsgn : Header.signer P h secret = .ok f)
    (hencH : cH.encodeJSON h = .ok bsH) (hbsH : ∀ b ∈ bsH, b < 256)
    (hencC : cA.encodeJSON c = .ok bsC) (hbsC : ∀ b ∈ bsC, b < 256)
    (hdecH : cH.decodeJSON bsH zeroHeader = .ok h1)
    (hsgn1 : Header.signer P h1 secret = .ok f)
    (hdig : ∀ b ∈ f (charsToBytes (encodeJWTBase64 bsH ++ '.' :: encodeJWTBase64 bsC)), b < 256)
    (hdecC : cA.decodeJSON bsC c0 = .ok c1) :
    tokenMarshal P cH cA h c secret =
      .ok (b64valuesMarshal (encodeJWTBase64 bsH) (encodeJWTBase64 bsC)
        (encodeJWTBase64 (f (charsToBytes (encodeJWTBase64 bsH ++ '.' :: encodeJWTBase64 bsC)))))
    ∧ tokenUnmarshal P cH cA
        (b64valuesMarshal (encodeJWTBase64 bsH) (encodeJWTBase64 bsC)
          (encodeJWTBase64 (f (charsToBytes (encodeJWTBase64 bsH ++ '.' :: encodeJWTBase64 bsC)))))
        secret zeroHeader c0 = (none, h1, c1) := by
  constructor
  · simp only [tokenMarshal, headerMarshal, payloadMarshal, hsgn, hencH, hencC]
  · have hsplit := b64valuesUnmarshal_marshal
      (h := encodeJWTBase64 bsH) (p := encodeJWTBase64 bsC)
      (encodeJWTBase64 (f (charsToBytes (encodeJWTBase64 bsH ++ '.' :: encodeJWTBase64 bsC))))
      (dot_not_mem_encodeJWTBase64 hbsH) (dot_not_mem_encodeJWTBase64 hbsC)
    have hsdec := decodeJWTBase64_encodeJWTBase64 _ hdig
    have hhdec := decodeJWTBase64_encodeJWTBase64 _ hbsH
    have hpdec := decodeJWTBase64_encodeJWTBase64 _ hbsC
    simp only [tokenUnmarshal, hsplit, headerUnmarshal, hhdec, hdecH, hsgn1, hsdec,
      payloadUnmarshal, hpdec, hdecC, if_pos rfl, if_true]

theorem splitDot_some_of_mem {s : List Char} (h : '.' ∈ s) :
    ∃ p, splitDot s = some p := by
  rcases e : splitDot s with _ | p
  · exact absurd h (splitDot_eq_none.mp e)
  · exact ⟨p, rfl⟩

theorem b64valuesUnmarshal_of_some_some {s a b c d : List Char}
    (e1 : splitDot s = some (a, b)) (e2 : splitDot b = some (c, d)) :
    b64valuesUnmarshal s = .ok (a, c, d) := by
  unfold b64valuesUnmarshal
  rw [splitN3Dot_of_some_some e1 e2]

/-- C1: for every compact token and secret, `token.unmarshal` performs the
signature comparison (the constant-time `crypto.Equal`, semantically list
equality) before any payload decoding: whenever the recomputed signature
differs from the decoded signature segment the result is
`SignatureMismatchError`, the claims target is unchanged, and the result
is the same for every payload codec — the payload is never decoded. -/
theorem claimC1_signature_checked_first (P : HMACPrimitives) (cH : Codec Header)
    (jws : List Char) (secret : List Nat) (h1 : Header)
    (H Pl S : List Char) (expectedSig : List Nat) (f : List Nat → List Nat)
    (hsplit : b64valuesUnmarshal jws = .ok (H, Pl, S))
    (hsig : decodeJWTBase64 S = .ok expectedSig)
    (hhdr : headerUnmarshal cH H zeroHeader = .ok h1)
    (hsgn : Header.signer P h1 secret = .ok f)
    (hne : f (charsToBytes (H ++ '.' :: Pl)) ≠ expectedSig) :
    ∀ (α : Type) (cA : Codec α) (c0 : α),
      tokenUnmarshal P cH cA jws secret zeroHeader c0 = (some .signatureMismatch, h1, c0)
      ∧ UnmarshalJWT P cH cA jws c0 secret = (some .signatureMismatch, c0) := by
  intro α cA c0
  have hu : tokenUnmarshal P cH cA jws secret zeroHeader c0
      = (some .signatureMismatch, h1, c0) := by
    simp only [tokenUnmarshal, hsplit, hsig, hhdr, hsgn, if_neg hne]
  exact ⟨hu, by simp only [UnmarshalJWT, hu]⟩

theorem claimC1_witness :
    tokenUnmarshal toyPrimitives headerCodec natCodec
        (b64valuesMarshal (encodeJWTBase64 (charsToBytes "HS256".data ++ 255 :: charsToBytes "JWT".data))
          ['A', 'A'] ['A', 'A']) [9, 9] zeroHeader (0 : Nat)
      = (some .signatureMismatch, ⟨"HS256", "JWT"⟩, 0)
    ∧ UnmarshalJWT toyPrimitives headerCodec natCodec
        (b64valuesMarshal (encodeJWTBase64 (charsToBytes "HS256".data ++ 255 :: charsToBytes "JWT".data))
          ['A', 'A'] ['A', 'A']) 0 [9, 9]
      = (some .signatureMismatch, 0) :=
  claimC1_signature_checked_first toyPrimitives headerCodec
    (b64valuesMarshal (encodeJWTBase64 (charsToBytes "HS256".data ++ 255 :: charsToBytes "JWT".data))
      ['A', 'A'] ['A', 'A']) [9, 9] ⟨"HS256", "JWT"⟩
    (encodeJWTBase64 (charsToBytes "HS256".data ++ 255 :: charsToBytes "JWT".data))
    ['A', 'A'] ['A', 'A'] [0] (toyHMAC 1 [9, 9])
    (by decide) (by decide) (by decide) rfl (by decide) Nat natCodec 0

/-- C6: an undecodable signature segment is narrowed to
`InvalidTokenError` regardless of the decode-layer error, whereas a
failure to decode the header segment (base64url or structured-data)
propagates verbatim. -/
theorem claimC6_error_narrowing (P : HMACPrimitives) (cH : Codec Header)
    (α : Type) (cA : Codec α) (jws : List Char) (secret : List Nat)
    (h0 : Header) (c0 : α) (H Pl S : List Char)
    (hsplit : b64valuesUnmarshal jws = .ok (H, Pl, S)) :
    (∀ e, decodeJWTBase64 S = .error e →
        tokenUnmarshal P cH cA jws secret h0 c0 = (some .invalidToken, h0, c0))
    ∧ (∀ expectedSig e, decodeJWTBase64 S = .ok expectedSig →
        headerUnmarshal cH H h0 = .error e →
        tokenUnmarshal P cH cA jws secret h0 c0 = (some e, h0, c0))
    ∧ Err.base64Error ≠ Err.invalidToken := by
  refine ⟨?_, ?_, by decide⟩
  · intro e he
    simp only [tokenUnmarshal, hsplit, he]
  · intro expectedSig e he1 he2
    simp only [tokenUnmarshal, hsplit, he1, he2]

theorem claimC6_witness :
    tokenUnmarshal toyPrimitives headerCodec natCodec
        ['A', 'A', '.', 'A', 'A', '.', '='] [9, 9] zeroHeader (0 : Nat)
      = (some .invalidToken, zeroHeader, 0)
    ∧ tokenUnmarshal toyPrimitives headerCodec natCodec
        ['=', '.', 'A', 'A', '.', 'A', 'A'] [9, 9] zeroHeader (0 : Nat)
      = (some .base64Error, zeroHeader, 0) :=
  ⟨(claimC6_error_narrowing toyPrimitives headerCodec Nat natCodec
      ['A', 'A', '.', 'A', 'A', '.', '='] [9, 9] zeroHeader 0
      ['A', 'A'] ['A', 'A'] ['='] (by decide)).1 .base64Error (by decide),
   (claimC6_error_narrowing toyPrimitives headerCodec Nat natCodec
      ['=', '.', 'A', 'A', '.', 'A', 'A'] [9, 9] zeroHeader 0
      ['='] ['A', 'A'] ['A', 'A'] (by decide)).2.1 [0] .base64Error
      (by decide) (by decide)⟩

/-- C7: `b64values.unmarshal` fails with `InvalidTokenError` exactly when
the text has fewer than two separators; with two or more it returns the
three segments, the first two separators delimiting dot-free header and
payload segments and the signature absorbing the rest; a leading
separator yields an empty header segment, and a trailing separator (when
it is the second of exactly two) an empty signature segment, without the
split itself erroring. -/
theorem claimC7_split_segments (s : List Char) :
    (b64valuesUnmarshal s = .error .invalidToken ↔ s.count '.' < 2)
    ∧ (2 ≤ s.count '.' →
        ∃ H Pl Sg, b64valuesUnmarshal s = .ok (H, Pl, Sg)
          ∧ s = H ++ '.' :: (Pl ++ '.' :: Sg)
          ∧ '.' ∉ H ∧ '.' ∉ Pl
          ∧ (∀ rest, s = '.' :: rest → H = [])
          ∧ (s.count '.' = 2 → s.getLast? = some '.' → Sg = [])) := by
  refine ⟨b64valuesUnmarshal_err_iff s, ?_⟩
  intro hcount
  have hmem : '.' ∈ s := by
    have : 0 < s.count '.' := by omega
    exact List.count_pos_iff.mp this
  obtain ⟨⟨a, b⟩, e1⟩ := splitDot_some_of_mem hmem
  have hc1 := count_of_splitDot_some e1
  have hmem2 : '.' ∈ b := by
    have : 0 < b.count '.' := by omega
    exact List.count_pos_iff.mp this
  obtain ⟨⟨c, d⟩, e2⟩ := splitDot_some_of_mem hmem2
  have hc2 := count_of_splitDot_some e2
  obtain ⟨hs1, ha⟩ := splitDot_eq_some e1
  obtain ⟨hs2, hcnotin⟩ := splitDot_eq_some e2
  refine ⟨a, c, d, b64valuesUnmarshal_of_some_some e1 e2, ?_, ha, hcnotin, ?_, ?_⟩
  · rw [hs1, hs2]
  · intro rest hrest
    cases a with
    | nil => rfl
    | cons x t =>
        rw [hs1, hs2] at hrest
        simp only [List.cons_append, List.cons.injEq] at hrest
        exact absurd (by simp [hrest.1]) ha
  · intro h2 hlast
    have hda : d.count '.' = 0 := by
      have hsum : s.count '.' = b.count '.' + 1 := hc1
      have hsum2 : b.count '.' = d.count '.' + 1 := hc2
      omega
    rcases List.eq_nil_or_concat d with rfl | ⟨u, x, rfl⟩
    · rfl
    · exfalso
      have hshape : s = (a ++ '.' :: (c ++ '.' :: u)) ++ [x] := by
        rw [hs1, hs2]
        simp
      rw [hshape, List.getLast?_concat] at hlast
      have hx : x = '.' := by
        simpa using hlast
      subst hx
      have hm : '.' ∈ u ++ ['.'] := by simp
      have hpos := List.count_pos_iff.mpr hm
      simp only [List.concat_eq_append] at hda
      omega

theorem claimC7_witness :
    ∃ H Pl Sg, b64valuesUnmarshal ['.', 'b', '.'] = .ok (H, Pl, Sg)
      ∧ ['.', 'b', '.'] = H ++ '.' :: (Pl ++ '.' :: Sg)
      ∧ '.' ∉ H ∧ '.' ∉ Pl
      ∧ (∀ rest, ['.', 'b', '.'] = '.' :: rest → H = [])
      ∧ (List.count '.' ['.', 'b', '.'] = 2 → List.getLast? ['.', 'b', '.'] = some '.' → Sg = []) :=
  (claimC7_split_segments ['.', 'b', '.']).2 (by decide)

/-- C2: round-trip. For every header with a supported algorithm and type
"JWT", claims value serializable by the structured-data codec (with the
codec round-tripping on it, which is the "modulo numeric widening"
proviso), and secret, `Marshal` succeeds and `Unmarshal` of its output
with the same secret succeeds and leaves the fresh target equal to the
original claims; the same holds through the spec's validating pipeline
when the standard time fields are currently valid. -/
theorem claimC2_round_trip (P : HMACPrimitives) (cH : Codec Header) :
    (∀ (α : Type) (cA : Codec α) (h : Header) (c c0 : α) (secret : List Nat)
        (f : List Nat → List Nat) (bsH bsC : List Nat),
        h.typ = "JWT" →
        Header.signer P h secret = .ok f →
        cH.encodeJSON h = .ok bsH → (∀ b ∈ bsH, b < 256) →
        cA.encodeJSON c = .ok bsC → (∀ b ∈ bsC, b < 256) →
        cH.decodeJSON bsH zeroHeader = .ok h →
        (∀ b ∈ f (charsToBytes (encodeJWTBase64 bsH ++ '.' :: encodeJWTBase64 bsC)), b < 256) →
        cA.decodeJSON bsC c0 = .ok c →
        ∃ T, tokenMarshal P cH cA h c secret = .ok T
          ∧ UnmarshalJWT P cH cA T c0 secret = (none, c))
    ∧ (∀ (cC : Codec Claims) (now : Int) (h : Header) (cc cc0 : Claims)
        (secret : List Nat) (f : List Nat → List Nat) (bsH bsC : List Nat),
        h.typ = "JWT" →
        Header.signer P h secret = .ok f →
        cH.encodeJSON h = .ok bsH → (∀ b ∈ bsH, b < 256) →
        cC.encodeJSON cc = .ok bsC → (∀ b ∈ bsC, b < 256) →
        cH.decodeJSON bsH zeroHeader = .ok h →
        (∀ b ∈ f (charsToBytes (encodeJWTBase64 bsH ++ '.' :: encodeJWTBase64 bsC)), b < 256) →
        cC.decodeJSON bsC cc0 = .ok cc →
        Claims.valid now cc = none →
        ∃ T, tokenMarshal P cH cC h cc secret = .ok T
          ∧ UnmarshalValidate P cH cC now T cc0 secret = (none, cc)) := by
  constructor
  · intro α cA h c c0 secret f bsH bsC htyp hsgn hencH hbsH hencC hbsC hdecH hdig hdecC
    obtain ⟨hm, hu⟩ := tokenUnmarshal_of_marshal P cH cA h h c c0 c secret f bsH bsC
      hsgn hencH hbsH hencC hbsC hdecH hsgn hdig hdecC
    refine ⟨_, hm, ?_⟩
    simp [UnmarshalJWT, hu, htyp]
  · intro cC now h cc cc0 secret f bsH bsC htyp hsgn hencH hbsH hencC hbsC hdecH hdig hdecC hvalid
    obtain ⟨hm, hu⟩ := tokenUnmarshal_of_marshal P cH cC h h cc cc0 cc secret f bsH bsC
      hsgn hencH hbsH hencC hbsC hdecH hsgn hdig hdecC
    refine ⟨_, hm, ?_⟩
    simp [UnmarshalValidate, hu, hvalid, htyp]

theorem claimC2_witness :
    ∃ T, tokenMarshal toyPrimitives headerCodec natCodec ⟨"HS256", "JWT"⟩ 7 [9, 9] = .ok T
      ∧ UnmarshalJWT toyPrimitives headerCodec natCodec T 0 [9, 9] = (none, 7) :=
  (claimC2_round_trip toyPrimitives headerCodec).1 Nat natCodec ⟨"HS256", "JWT"⟩ 7 0 [9, 9]
    (toyHMAC 1 [9, 9]) (charsToBytes "HS256".data ++ 255 :: charsToBytes "JWT".data) [7]
    rfl rfl (by decide) (by decide) (by decide) (by decide) (by decide) (by decide) (by decide)

/-- C8: time-claim validation (spec-modelled, the `Claims` validator is
absent from the sources): unmarshalling a validly signed token returns
exactly the time-validation verdict of the decoded claims; at evaluation
time `now` the boundaries are `expiresAt = now` expired,
`expiresAt = now + 1` valid, `notBefore = now` valid, `notBefore = now + 1`
not yet valid, `issuedAt = now` valid, `issuedAt = now + 1` used before
issued (zero fields skipped); and a signature mismatch takes precedence,
the validation running strictly after signature verification. -/
theorem claimC8_time_boundaries (P : HMACPrimitives) (cH : Codec Header)
    (cC : Codec Claims) (now : Int) :
    (∀ (h : Header) (cc cc0 : Claims) (secret : List Nat)
        (f : List Nat → List Nat) (bsH bsC : List Nat),
        h.typ = "JWT" →
        Header.signer P h secret = .ok f →
        cH.encodeJSON h = .ok bsH → (∀ b ∈ bsH, b < 256) →
        cC.encodeJSON cc = .ok bsC → (∀ b ∈ bsC, b < 256) →
        cH.decodeJSON bsH zeroHeader = .ok h →
        (∀ b ∈ f (charsToBytes (encodeJWTBase64 bsH ++ '.' :: encodeJWTBase64 bsC)), b < 256) →
        cC.decodeJSON bsC cc0 = .ok cc →
        ∃ T, tokenMarshal P cH cC h cc secret = .ok T
          ∧ UnmarshalValidate P cH cC now T cc0 secret = (Claims.valid now cc, cc))
    ∧ (1 ≤ now →
        Claims.valid now ⟨"", "", "", now, 0, 0, ""⟩ = some .tokenExpired
        ∧ Claims.valid now ⟨"", "", "", now + 1, 0, 0, ""⟩ = none
        ∧ Claims.valid now ⟨"", "", "", 0, now, 0, ""⟩ = none
        ∧ Claims.valid now ⟨"", "", "", 0, now + 1, 0, ""⟩ = some .tokenNotYetValid
        ∧ Claims.valid now ⟨"", "", "", 0, 0, now, ""⟩ = none
        ∧ Claims.valid now ⟨"", "", "", 0, 0, now + 1, ""⟩ = some .tokenUsedBeforeIssued)
    ∧ (∀ (jws : List Char) (secret : List Nat) (cc0 : Claims) (h1 : Header)
        (H Pl S : List Char) (expectedSig : List Nat) (f : List Nat → List Nat),
        b64valuesUnmarshal jws = .ok (H, Pl, S) →
        decodeJWTBase64 S = .ok expectedSig →
        headerUnmarshal cH H zeroHeader = .ok h1 →
        Header.signer P h1 secret = .ok f →
        f (charsToBytes (H ++ '.' :: Pl)) ≠ expectedSig →
        UnmarshalValidate P cH cC now jws cc0 secret = (some .signatureMismatch, cc0)) := by
  refine ⟨?_, ?_, ?_⟩
  · intro h cc cc0 secret f bsH bsC htyp hsgn hencH hbsH hencC hbsC hdecH hdig hdecC
    obtain ⟨hm, hu⟩ := tokenUnmarshal_of_marshal P cH cC h h cc cc0 cc secret f bsH bsC
      hsgn hencH hbsH hencC hbsC hdecH hsgn hdig hdecC
    refine ⟨_, hm, ?_⟩
    rcases hv : Claims.valid now cc with _ | e
    · simp [UnmarshalValidate, hu, hv, htyp]
    · simp [UnmarshalValidate, hu, hv]
  · intro hnow
    refine ⟨?_, ?_, ?_, ?_, ?_, ?_⟩ <;>
      · simp only [Claims.valid]
        split_ifs <;> first | rfl | (exfalso; omega)
  · intro jws secret cc0 h1 H Pl S expectedSig f hsplit hsig hhdr hsgn hne
    have hu : tokenUnmarshal P cH cC jws secret zeroHeader cc0
        = (some .signatureMismatch, h1, cc0) := by
      simp only [tokenUnmarshal, hsplit, hsig, hhdr, hsgn, if_neg hne]
    simp only [UnmarshalValidate, hu]

theorem claimC8_witness :
    (∃ T, tokenMarshal toyPrimitives headerCodec claimsCodec ⟨"HS256", "JWT"⟩
        ⟨"", "", "", 6, 0, 0, ""⟩ [9, 9] = .ok T
      ∧ UnmarshalValidate toyPrimitives headerCodec claimsCodec 5 T
          ⟨"", "", "", 0, 0, 0, ""⟩ [9, 9]
        = (Claims.valid 5 ⟨"", "", "", 6, 0, 0, ""⟩, ⟨"", "", "", 6, 0, 0, ""⟩))
    ∧ Claims.valid 5 ⟨"", "", "", 5, 0, 0, ""⟩ = some .tokenExpired
    ∧ UnmarshalValidate toyPrimitives headerCodec claimsCodec 5
        (b64valuesMarshal (encodeJWTBase64 (charsToBytes "HS256".data ++ 255 :: charsToBytes "JWT".data))
          ['A', 'A'] ['A', 'A']) ⟨"", "", "", 0, 0, 0, ""⟩ [9, 9]
      = (some .signatureMismatch, ⟨"", "", "", 0, 0, 0, ""⟩) :=
  ⟨(claimC8_time_boundaries toyPrimitives headerCodec claimsCodec 5).1
      ⟨"HS256", "JWT"⟩ ⟨"", "", "", 6, 0, 0, ""⟩ ⟨"", "", "", 0, 0, 0, ""⟩ [9, 9]
      (toyHMAC 1 [9, 9]) (charsToBytes "HS256".data ++ 255 :: charsToBytes "JWT".data) [6, 0, 0]
      rfl rfl (by decide) (by decide) (by decide) (by decide) (by decide) (by decide) (by decide),
   ((claimC8_time_boundaries toyPrimitives headerCodec claimsCodec 5).2.1 (by decide)).1,
   (claimC8_time_boundaries toyPrimitives headerCodec claimsCodec 5).2.2
      (b64valuesMarshal (encodeJWTBase64 (charsToBytes "HS256".data ++ 255 :: charsToBytes "JWT".data))
        ['A', 'A'] ['A', 'A']) [9, 9] ⟨"", "", "", 0, 0, 0, ""⟩ ⟨"HS256", "JWT"⟩
      (encodeJWTBase64 (charsToBytes "HS256".data ++ 255 :: charsToBytes "JWT".data))
      ['A', 'A'] ['A', 'A'] [0] (toyHMAC 1 [9, 9])
      (by decide) (by decide) (by decide) rfl (by decide)⟩

/-- C10: when a validly signed token fails only the type check, the
`Unmarshal` of `jwt/unmarshal.go` returns `UnsupportedTypeError` with the
claims target already populated by the decoded payload: the type check is
not atomic with respect to the claims target. -/
theorem claimC10_claims_populated_on_type_error (P : HMACPrimitives) (cH : Codec Header)
    (α : Type) (cA : Codec α) (jws : List Char) (secret : List Nat)
    (h1 : Header) (c0 c1 : α) (H Pl S : List Char) (expectedSig : List Nat)
    (f : List Nat → List Nat)
    (hsplit : b64valuesUnmarshal jws = .ok (H, Pl, S))
    (hsig : decodeJWTBase64 S = .ok expectedSig)
    (hhdr : headerUnmarshal cH H zeroHeader = .ok h1)
    (hsgn : Header.signer P h1 secret = .ok f)
    (heq : f (charsToBytes (H ++ '.' :: Pl)) = expectedSig)
    (hpay : payloadUnmarshal cA Pl c0 = .ok c1)
    (htyp : h1.typ ≠ "JWT") :
    UnmarshalJWT P cH cA jws c0 secret = (some (.unsupportedType h1.typ), c1) := by
  have hu : tokenUnmarshal P cH cA jws secret zeroHeader c0 = (none, h1, c1) := by
    simp only [tokenUnmarshal, hsplit, hsig, hhdr, hsgn, heq, if_pos rfl, if_true, hpay]
  simp only [UnmarshalJWT, hu, if_neg htyp]

theorem claimC10_witness :
    UnmarshalJWT toyPrimitives headerCodec natCodec
        (b64valuesMarshal (encodeJWTBase64 (charsToBytes "HS256".data ++ 255 :: charsToBytes "X".data))
          (encodeJWTBase64 [7])
          (encodeJWTBase64 (toyHMAC 1 [9, 9]
            (charsToBytes (encodeJWTBase64 (charsToBytes "HS256".data ++ 255 :: charsToBytes "X".data)
              ++ '.' :: encodeJWTBase64 [7])))))
        0 [9, 9]
      = (some (.unsupportedType "X"), 7) :=
  claimC10_claims_populated_on_type_error toyPrimitives headerCodec Nat natCodec
    (b64valuesMarshal (encodeJWTBase64 (charsToBytes "HS256".data ++ 255 :: charsToBytes "X".data))
      (encodeJWTBase64 [7])
      (encodeJWTBase64 (toyHMAC 1 [9, 9]
        (charsToBytes (encodeJWTBase64 (charsToBytes "HS256".data ++ 255 :: charsToBytes "X".data)
          ++ '.' :: encodeJWTBase64 [7])))))
    [9, 9] ⟨"HS256", "X"⟩ 0 7
    (encodeJWTBase64 (charsToBytes "HS256".data ++ 255 :: charsToBytes "X".data))
    (encodeJWTBase64 [7])
    (encodeJWTBase64 (toyHMAC 1 [9, 9]
      (charsToBytes (encodeJWTBase64 (charsToBytes "HS256".data ++ 255 :: charsToBytes "X".data)
        ++ '.' :: encodeJWTBase64 [7]))))
    (toyHMAC 1 [9, 9]
      (charsToBytes (encodeJWTBase64 (charsToBytes "HS256".data ++ 255 :: charsToBytes "X".data)
        ++ '.' :: encodeJWTBase64 [7])))
    (toyHMAC 1 [9, 9])
    (by decide) (by decide) (by decide) rfl rfl (by decide) (by decide)

/-- C5 (amended): `Header.signer` matches the algorithm case-insensitively
against HS256/HS384/HS512, returning the corresponding keyed hash seeded
with the secret (with 32/48/64-byte digests when the primitives have their
standard sizes); any other string, the empty one included, yields
`UnsupportedAlgorithmError` carrying the original string, and both
`Marshal` and `Unmarshal` abort with that error — for `Unmarshal` provided
the signature segment base64url-decodes, an undecodable signature segment
being reported as `InvalidTokenError` first (see the counterexample). -/
theorem claimC5_algorithm_selection (P : HMACPrimitives) :
    (∀ (h : Header) (secret : List Nat),
        (toUpperString h.alg = "HS256" → Header.signer P h secret = .ok (P.hmacSHA256 secret))
        ∧ (toUpperString h.alg = "HS384" → Header.signer P h secret = .ok (P.hmacSHA384 secret))
        ∧ (toUpperString h.alg = "HS512" → Header.signer P h secret = .ok (P.hmacSHA512 secret))
        ∧ (toUpperString h.alg ≠ "HS256" → toUpperString h.alg ≠ "HS384" →
            toUpperString h.alg ≠ "HS512" →
            Header.signer P h secret = .error (.unsupportedAlgorithm h.alg)))
    ∧ (∀ (h : Header) (secret : List Nat) (f : List Nat → List Nat) (m : List Nat),
        (∀ k msg, (P.hmacSHA256 k msg).length = 32) →
        (∀ k msg, (P.hmacSHA384 k msg).length = 48) →
        (∀ k msg, (P.hmacSHA512 k msg).length = 64) →
        Header.signer P h secret = .ok f →
        (toUpperString h.alg = "HS256" ∧ (f m).length = 32)
        ∨ (toUpperString h.alg = "HS384" ∧ (f m).length = 48)
        ∨ (toUpperString h.alg = "HS512" ∧ (f m).length = 64))
    ∧ (∀ (α : Type) (cH : Codec Header) (cA : Codec α) (h : Header) (c : α)
        (secret : List Nat),
        Header.signer P h secret = .error (.unsupportedAlgorithm h.alg) →
        tokenMarshal P cH cA h c secret = .error (.unsupportedAlgorithm h.alg))
    ∧ (∀ (α : Type) (cH : Codec Header) (cA : Codec α) (jws : List Char)
        (secret : List Nat) (h0 : Header) (c0 : α) (H Pl S : List Char)
        (expectedSig : List Nat) (h1 : Header),
        b64valuesUnmarshal jws = .ok (H, Pl, S) →
        decodeJWTBase64 S = .ok expectedSig →
        headerUnmarshal cH H h0 = .ok h1 →
        Header.signer P h1 secret = .error (.unsupportedAlgorithm h1.alg) →
        tokenUnmarshal P cH cA jws secret h0 c0
          = (some (.unsupportedAlgorithm h1.alg), h1, c0)) := by
  refine ⟨?_, ?_, ?_, ?_⟩
  · intro h secret
    refine ⟨?_, ?_, ?_, ?_⟩
    · intro e
      simp [Header.signer, e]
    · intro e
      simp [Header.signer, e]
    · intro e
      simp [Header.signer, e]
    · intro n1 n2 n3
      simp [Header.signer, n1, n2, n3]
  · intro h secret f m hl1 hl2 hl3 hsgn
    by_cases e1 : toUpperString h.alg = "HS256"
    · refine Or.inl ⟨e1, ?_⟩
      simp [Header.signer, e1] at hsgn
      subst hsgn
      exact hl1 secret m
    · by_cases e2 : toUpperString h.alg = "HS384"
      · refine Or.inr (Or.inl ⟨e2, ?_⟩)
        simp [Header.signer, e2] at hsgn
        subst hsgn
        exact hl2 secret m
      · by_cases e3 : toUpperString h.alg = "HS512"
        · refine Or.inr (Or.inr ⟨e3, ?_⟩)
          simp [Header.signer, e3] at hsgn
          subst hsgn
          exact hl3 secret m
        · exfalso
          simp [Header.signer, e1, e2, e3] at hsgn
  · intro α cH cA h c secret hsgn
    simp only [tokenMarshal, hsgn]
  · intro α cH cA jws secret h0 c0 H Pl S expectedSig h1 hsplit hsig hhdr hsgn
    simp only [tokenUnmarshal, hsplit, hsig, hhdr, hsgn]

theorem claimC5_witness :
    Header.signer toyPrimitives ⟨"hs256", ""⟩ [9, 9] = .ok (toyPrimitives.hmacSHA256 [9, 9])
    ∧ Header.signer toyPrimitives ⟨"", ""⟩ [9, 9] = .error (.unsupportedAlgorithm "")
    ∧ tokenMarshal toyPrimitives headerCodec natCodec ⟨"none", "JWT"⟩ 7 [9, 9]
        = .error (.unsupportedAlgorithm "none") :=
  ⟨((claimC5_algorithm_selection toyPrimitives).1 ⟨"hs256", ""⟩ [9, 9]).1 (by decide),
   ((claimC5_algorithm_selection toyPrimitives).1 ⟨"", ""⟩ [9, 9]).2.2.2
      (by decide) (by decide) (by decide),
   (claimC5_algorithm_selection toyPrimitives).2.2.1 Nat headerCodec natCodec
      ⟨"none", "JWT"⟩ 7 [9, 9] rfl⟩

theorem claimC5_counterexample :
    headerUnmarshal headerCodec ['A', 'A'] zeroHeader = .ok (headerCodecDec [0])
    ∧ Header.signer toyPrimitives (headerCodecDec [0]) [9, 9]
        = .error (.unsupportedAlgorithm (headerCodecDec [0]).alg)
    ∧ UnmarshalJWT toyPrimitives headerCodec natCodec
        ['A', 'A', '.', 'A', 'A', '.', '='] 0 [9, 9] = (some .invalidToken, 0)
    ∧ Err.invalidToken ≠ .unsupportedAlgorithm (headerCodecDec [0]).alg := by
  refine ⟨by decide, rfl, by decide, by decide⟩

/-- C4 (amended): tampering is detected as `SignatureMismatchError`
whenever the modified token still splits into segments whose signature
segment decodes and whose header decodes with a supported algorithm and
the recomputed signature differs from the decoded one; verifying a valid
token with a different secret whose recomputed signature differs likewise
fails with `SignatureMismatchError` and never succeeds silently. Byte
changes that break segmentation or decoding instead surface as decode
errors, `InvalidTokenError` included (see the counterexample). -/
theorem claimC4_tamper_detection (P : HMACPrimitives) (cH : Codec Header) :
    (∀ (α : Type) (cA : Codec α) (h h1 : Header) (c c0 : α)
        (secret secret2 : List Nat) (f f2 : List Nat → List Nat) (bsH bsC : List Nat),
        Header.signer P h secret = .ok f →
        cH.encodeJSON h = .ok bsH → (∀ b ∈ bsH, b < 256) →
        cA.encodeJSON c = .ok bsC → (∀ b ∈ bsC, b < 256) →
        (∀ b ∈ f (charsToBytes (encodeJWTBase64 bsH ++ '.' :: encodeJWTBase64 bsC)), b < 256) →
        cH.decodeJSON bsH zeroHeader = .ok h1 →
        Header.signer P h1 secret2 = .ok f2 →
        f2 (charsToBytes (encodeJWTBase64 bsH ++ '.' :: encodeJWTBase64 bsC))
          ≠ f (charsToBytes (encodeJWTBase64 bsH ++ '.' :: encodeJWTBase64 bsC)) →
        ∃ T, tokenMarshal P cH cA h c secret = .ok T
          ∧ UnmarshalJWT P cH cA T c0 secret2 = (some .signatureMismatch, c0))
    ∧ (∀ (α : Type) (cA : Codec α) (jws : List Char) (secret : List Nat) (c0 : α)
        (H Pl S : List Char) (expectedSig : List Nat) (h1 : Header)
        (f : List Nat → List Nat),
        b64valuesUnmarshal jws = .ok (H, Pl, S) →
        decodeJWTBase64 S = .ok expectedSig →
        headerUnmarshal cH H zeroHeader = .ok h1 →
        Header.signer P h1 secret = .ok f →
        f (charsToBytes (H ++ '.' :: Pl)) ≠ expectedSig →
        UnmarshalJWT P cH cA jws c0 secret = (some .signatureMismatch, c0)) := by
  constructor
  · intro α cA h h1 c c0 secret secret2 f f2 bsH bsC hsgn hencH hbsH hencC hbsC hdig
      hdecH hsgn2 hne
    refine ⟨b64valuesMarshal (encodeJWTBase64 bsH) (encodeJWTBase64 bsC)
      (encodeJWTBase64 (f (charsToBytes (encodeJWTBase64 bsH ++ '.' :: encodeJWTBase64 bsC)))),
      ?_, ?_⟩
    · simp only [tokenMarshal, headerMarshal, payloadMarshal, hsgn, hencH, hencC]
    · have hsplit := b64valuesUnmarshal_marshal
        (h := encodeJWTBase64 bsH) (p := encodeJWTBase64 bsC)
        (encodeJWTBase64 (f (charsToBytes (encodeJWTBase64 bsH ++ '.' :: encodeJWTBase64 bsC))))
        (dot_not_mem_encodeJWTBase64 hbsH) (dot_not_mem_encodeJWTBase64 hbsC)
      have hsdec := decodeJWTBase64_encodeJWTBase64 _ hdig
      have hhdec := decodeJWTBase64_encodeJWTBase64 _ hbsH
      have hu : tokenUnmarshal P cH cA
          (b64valuesMarshal (encodeJWTBase64 bsH) (encodeJWTBase64 bsC)
            (encodeJWTBase64 (f (charsToBytes (encodeJWTBase64 bsH ++ '.' :: encodeJWTBase64 bsC)))))
          secret2 zeroHeader c0 = (some .signatureMismatch, h1, c0) := by
        simp only [tokenUnmarshal, hsplit, hsdec, headerUnmarshal, hhdec, hdecH, hsgn2,
          if_neg hne]
      simp only [UnmarshalJWT, hu]
  · intro α cA jws secret c0 H Pl S expectedSig h1 f hsplit hsig hhdr hsgn hne
    have hu : tokenUnmarshal P cH cA jws secret zeroHeader c0
        = (some .signatureMismatch, h1, c0) := by
      simp only [tokenUnmarshal, hsplit, hsig, hhdr, hsgn, if_neg hne]
    simp only [UnmarshalJWT, hu]

theorem claimC4_witness :
    ∃ T, tokenMarshal toyPrimitives headerCodec natCodec ⟨"HS256", "JWT"⟩ 7 [9, 9] = .ok T
      ∧ UnmarshalJWT toyPrimitives headerCodec natCodec T 0 [9, 8]
          = (some .signatureMismatch, 0) :=
  (claimC4_tamper_detection toyPrimitives headerCodec).1 Nat natCodec
    ⟨"HS256", "JWT"⟩ ⟨"HS256", "JWT"⟩ 7 0 [9, 9] [9, 8]
    (toyHMAC 1 [9, 9]) (toyHMAC 1 [9, 8])
    (charsToBytes "HS256".data ++ 255 :: charsToBytes "JWT".data) [7]
    rfl (by decide) (by decide) (by decide) (by decide) (by decide) (by decide) rfl (by decide)

/-- The token of the C4 counterexample: a valid token over the witness
collaborators. -/
def c4tok : List Char :=
  b64valuesMarshal (encodeJWTBase64 (charsToBytes "HS256".data ++ 255 :: charsToBytes "JWT".data))
    (encodeJWTBase64 [7])
    (encodeJWTBase64 (toyHMAC 1 [9, 9]
      (charsToBytes (encodeJWTBase64 (charsToBytes "HS256".data ++ 255 :: charsToBytes "JWT".data)
        ++ '.' :: encodeJWTBase64 [7]))))

/-- The C4 counterexample token with a single byte of the payload segment
changed (to the separator character). -/
def c4tampered : List Char := c4tok.set 13 '.'

theorem claimC4_counterexample :
    tokenMarshal toyPrimitives headerCodec natCodec ⟨"HS256", "JWT"⟩ 7 [9, 9] = .ok c4tok
    ∧ (c4tok.take 12).count '.' = 0
    ∧ c4tok.getD 12 ' ' = '.'
    ∧ c4tok.getD 13 ' ' = 'B'
    ∧ c4tampered.getD 13 ' ' = '.'
    ∧ c4tok.take 13 = c4tampered.take 13
    ∧ c4tok.drop 14 = c4tampered.drop 14
    ∧ UnmarshalJWT toyPrimitives headerCodec natCodec c4tampered 0 [9, 9]
        = (some .invalidToken, 0)
    ∧ Err.invalidToken ≠ Err.signatureMismatch := by
  refine ⟨by decide, by decide, by decide, by decide, by decide, by decide, by decide,
    by decide, by decide⟩

/-- The compact token the C3 failing input produces: a correctly signed
token whose header carries an empty type, over the witness collaborators. -/
def c3tok : List Char :=
  (tokenMarshal toyPrimitives headerCodec natCodec ⟨"HS256", ""⟩ 7 [9, 9]).toOption.getD []

/-- The same failing input marshalled with the `Claims` codec, for the
comparison with the spec-modelled validating pipeline. -/
def c3tokClaims : List Char :=
  (tokenMarshal toyPrimitives headerCodec claimsCodec ⟨"HS256", ""⟩
    ⟨"", "", "", 0, 0, 0, ""⟩ [9, 9]).toOption.getD []

/-- C3: evaluation of the code at the failing input. `jwt/unmarshal.go`
rejects a correctly signed token whose header type is empty with
`UnsupportedTypeError` carrying the empty string, although the spec (and
the repository tests) treat an empty type as the default matching "JWT";
the spec-modelled validating pipeline accepts the same header. -/
theorem claimC3_empty_type_rejected :
    tokenMarshal toyPrimitives headerCodec natCodec ⟨"HS256", ""⟩ 7 [9, 9] = .ok c3tok
    ∧ UnmarshalJWT toyPrimitives headerCodec natCodec c3tok 0 [9, 9]
        = (some (.unsupportedType ""), 7)
    ∧ tokenMarshal toyPrimitives headerCodec claimsCodec ⟨"HS256", ""⟩
        ⟨"", "", "", 0, 0, 0, ""⟩ [9, 9] = .ok c3tokClaims
    ∧ UnmarshalValidate toyPrimitives headerCodec claimsCodec 5 c3tokClaims
        ⟨"", "", "", 0, 0, 0, ""⟩ [9, 9] = (none, ⟨"", "", "", 0, 0, 0, ""⟩)
    ∧ Err.unsupportedType "" ≠ Err.unsupportedType "JWT" := by
  refine ⟨by decide, by decide, by decide, by decide, by decide⟩

/-- C9: base64url invariants (spec-modelled codec): decode of encode is
the identity on byte sequences, the encoder emits only URL-safe alphabet
characters and never a padding or non-URL-safe character, the empty
sequence encodes to the empty text, and the decoder rejects any text
containing a padding character or a character outside the URL-safe
alphabet. -/
theorem claimC9_base64url_invariants (B : List Nat) (hB : ∀ b ∈ B, b < 256) :
    decodeJWTBase64 (encodeJWTBase64 B) = .ok B
    ∧ (∀ c ∈ encodeJWTBase64 B, isB64UrlChar c = true ∧ c ≠ '+' ∧ c ≠ '/' ∧ c ≠ '=')
    ∧ encodeJWTBase64 [] = []
    ∧ (∀ s : List Char, (∃ c ∈ s, isB64UrlChar c = false) →
        decodeJWTBase64 s = .error .base64Error)
    ∧ isB64UrlChar '=' = false ∧ isB64UrlChar '+' = false ∧ isB64UrlChar '/' = false := by
  refine ⟨decodeJWTBase64_encodeJWTBase64 B hB, ?_, rfl,
    decodeJWTBase64_err_of_invalid, by decide, by decide, by decide⟩
  intro c hc
  have hmem := mem_encodeJWTBase64_isB64 B hB c hc
  refine ⟨hmem, ?_, ?_, ?_⟩ <;> (rintro rfl; exact absurd hmem (by decide))

theorem claimC9_witness :
    decodeJWTBase64 (encodeJWTBase64 [251, 255]) = .ok [251, 255] :=
  (claimC9_base64url_invariants [251, 255] (by decide)).1

end Gotoken
